import Mathlib

/-!
Verification of the client-side cryptographic core and API helpers of the
snipit-vscode extension (src/utils/encryption.ts, src/api/snipit.ts).

Modelling conventions:
* JavaScript strings are modelled as `List Char`; `Buffer` values (byte
  sequences) are modelled as `List Nat`, each entry intended to be a byte
  (< 256) where the source guarantees it.
* The fields of an `EncryptedData` envelope are modelled as the decoded byte
  sequences; the standard-base64 rendering used purely for transport of those
  fields is left at the boundary.  The URL-safe codec (`toBase64Url` /
  `fromBase64Url`), which the source implements itself, is modelled in full.
* The platform primitives that the source delegates to (Node's
  `crypto.createCipheriv('aes-256-gcm', ...)`, `crypto.pbkdf2Sync` and the
  UTF-8 conversion of `cipher.update(content, 'utf8', ...)`) are not code of
  this repository; they are modelled from the spec, as documented on each
  definition.  In particular the GCM authentication tag is modelled as a
  16-entry sequence whose first entry is an injective binding of
  (key, nonce, ciphertext), realising the spec's demand that the tag be
  "bound to ciphertext + key + nonce" and that verification fail for a wrong
  key, wrong nonce, or any altered ciphertext/tag byte.
* Randomness (`crypto.randomBytes`) is the spec's RandomSource capability; it
  is modelled by passing the drawn bytes (key, iv, salt) as explicit
  arguments subject to the length contracts `randomBytes(n)` guarantees.
-/

namespace SnipitVerify

/-! ### An injective encoding of `List Nat` into `Nat`

Used by the modelled GCM tag and the modelled PBKDF2 to bind values
injectively.  Every entry is rendered as its base-256 digits followed by a
separator digit 256, and the resulting digit stream is read in base 257. -/

/-- Digit stream of a list of naturals: base-256 digits of each entry,
each entry terminated by a separator digit 256. -/
def natStream : List Nat → List Nat
  | [] => []
  | b :: t => Nat.digits 256 b ++ 256 :: natStream t

/-- Injective encoding of a list of naturals as a single natural: the digit
stream of the list read in base 257. -/
def encodeAny (l : List Nat) : Nat := Nat.ofDigits 257 (natStream l)

/-! ### URL-safe base64 codec (src/utils/encryption.ts, lines 29-45)

`toBase64Url` mirrors `buffer.toString('base64')` followed by the three
replacements `+ -> -`, `/ -> _`, `= -> ''`; `fromBase64Url` mirrors the
inverse replacements, the `while (base64.length % 4) base64 += '='` padding
loop, and `Buffer.from(base64, 'base64')`.  Node's base64 decoder is
forgiving: characters that are not in the standard alphabet (including
misplaced `=`) are skipped, and trailing bits that do not fill a byte are
dropped; the decoder below models that behaviour. -/

/-- Standard base64 alphabet, in index order. -/
def stdAlphabet : List Char :=
  ['A', 'B', 'C', 'D', 'E', 'F', 'G', 'H', 'I', 'J', 'K', 'L', 'M',
   'N', 'O', 'P', 'Q', 'R', 'S', 'T', 'U', 'V', 'W', 'X', 'Y', 'Z',
   'a', 'b', 'c', 'd', 'e', 'f', 'g', 'h', 'i', 'j', 'k', 'l', 'm',
   'n', 'o', 'p', 'q', 'r', 's', 't', 'u', 'v', 'w', 'x', 'y', 'z',
   '0', '1', '2', '3', '4', '5', '6', '7', '8', '9', '+', '/']

/-- Character of the standard base64 alphabet at a sextet index. -/
def b64Char (i : Nat) : Char := stdAlphabet.getD i 'A'

/-- Position of a character in a list of characters. -/
def charIndexAux : List Char → Char → Option Nat
  | [], _ => none
  | a :: t, c => if a = c then some 0 else (charIndexAux t c).map (· + 1)

/-- Sextet value of a standard-base64 character, `none` for every character
outside the standard alphabet (Node's decoder skips those). -/
def stdIndex (c : Char) : Option Nat := charIndexAux stdAlphabet c

/-- Standard base64 encoding of a byte sequence: groups of three bytes become
four alphabet characters, with `=` padding for a trailing group of one or two
bytes (this is `buffer.toString('base64')`). -/
def stdBase64Encode : List Nat → List Char
  | [] => []
  | [a] => [b64Char (a / 4), b64Char (a % 4 * 16), '=', '=']
  | [a, b] => [b64Char (a / 4), b64Char (a % 4 * 16 + b / 16), b64Char (b % 16 * 4), '=']
  | a :: b :: c :: t =>
      b64Char (a / 4) :: b64Char (a % 4 * 16 + b / 16) ::
        b64Char (b % 16 * 4 + c / 64) :: b64Char (c % 64) :: stdBase64Encode t

/-- The two character replacements applied by `toBase64Url`. -/
def swapEnc (c : Char) : Char := if c = '+' then '-' else if c = '/' then '_' else c

/-- The two inverse replacements applied by `fromBase64Url`. -/
def swapDec (c : Char) : Char := if c = '-' then '+' else if c = '_' then '/' else c

/-- Converts a buffer to URL-safe base64 (src lines 29-34): standard base64,
then replace `+` with `-`, `/` with `_`, and drop every `=`. -/
def toBase64Url (buffer : List Nat) : List Char :=
  ((stdBase64Encode buffer).map swapEnc).filter (fun c => c ≠ '=')

/-- Reassembles bytes from a sextet stream, three bytes per four sextets;
a trailing group of two or three sextets yields one or two bytes, and a
trailing single sextet (6 bits, less than a byte) is dropped. -/
def sextetsToBytes : List Nat → List Nat
  | a :: b :: c :: d :: t =>
      (a * 4 + b / 16) :: (b % 16 * 16 + c / 4) :: (c % 4 * 64 + d) :: sextetsToBytes t
  | [a, b] => [a * 4 + b / 16]
  | [a, b, c] => [a * 4 + b / 16, b % 16 * 16 + c / 4]
  | _ => []

/-- Modelled from the spec and Node's documented behaviour of
`Buffer.from(s, 'base64')` (the decoder itself is not code of this
repository): characters outside the standard alphabet are skipped, the
remaining sextets are packed into bytes. -/
def stdBase64DecodeLenient (s : List Char) : List Nat :=
  sextetsToBytes (s.filterMap stdIndex)

/-- Converts URL-safe base64 to a buffer (src lines 39-45): replace `-` with
`+` and `_` with `/`, pad with `=` until the length is a multiple of 4, then
standard base64 decode. -/
def fromBase64Url (str : List Char) : List Nat :=
  let base64 := str.map swapDec
  stdBase64DecodeLenient (base64 ++ List.replicate ((4 - base64.length % 4) % 4) '=')

/-- Characters the URL-safe decoder actually consumes: those whose image
under the inverse replacements lands in the standard alphabet.  Besides the
URL-safe alphabet `A-Z a-z 0-9 - _` this includes a literal `+` or `/`,
which the source's substitutions (they only map `-` and `_`) leave untouched
and the base64 decoder then consumes as sextets 62 and 63. -/
def isB64UrlValid (c : Char) : Bool := (stdIndex (swapDec c)).isSome

/-! ### UTF-8 (the `'utf8'` conversions of `cipher.update` / `Buffer.from`)

Modelled from the spec: the UTF-8 codec is the platform's, not code of this
repository.  Encoding is standard UTF-8 of each scalar value; decoding is
total and lossy, emitting U+FFFD for malformed sequences as Node does. -/

/-- Standard UTF-8 encoding of a single scalar value. -/
def utf8EncodeChar (c : Nat) : List Nat :=
  if c < 0x80 then [c]
  else if c < 0x800 then [0xC0 + c / 64, 0x80 + c % 64]
  else if c < 0x10000 then [0xE0 + c / 4096, 0x80 + c / 64 % 64, 0x80 + c % 64]
  else [0xF0 + c / 262144, 0x80 + c / 4096 % 64, 0x80 + c / 64 % 64, 0x80 + c % 64]

/-- UTF-8 encoding of a string (`Buffer.from(content, 'utf8')`). -/
def utf8Encode : List Char → List Nat
  | [] => []
  | c :: t => utf8EncodeChar c.toNat ++ utf8Encode t

/-- The replacement character U+FFFD. -/
def replacementChar : Char := Char.ofNat 0xFFFD

/-- Continuation-byte test for UTF-8 decoding. -/
def isCont (b : Nat) : Bool := 0x80 ≤ b && b < 0xC0

/-- Total, lossy UTF-8 decoding, as a byte-at-a-time state machine:
`need` is the number of continuation bytes still expected and `acc` the
code-point bits accumulated so far.  A malformed byte, or running out of
input mid-sequence, produces the replacement character, as Node's lossy
`buffer.toString('utf8')` does. -/
def utf8DecodeAux (need acc : Nat) : List Nat → List Char
  | [] => if need = 0 then [] else [replacementChar]
  | b :: rest =>
    if need = 0 then
      if b < 0x80 then Char.ofNat b :: utf8DecodeAux 0 0 rest
      else if b < 0xC0 then replacementChar :: utf8DecodeAux 0 0 rest
      else if b < 0xE0 then utf8DecodeAux 1 (b - 0xC0) rest
      else if b < 0xF0 then utf8DecodeAux 2 (b - 0xE0) rest
      else if b < 0xF8 then utf8DecodeAux 3 (b - 0xF0) rest
      else replacementChar :: utf8DecodeAux 0 0 rest
    else
      if isCont b then
        if need = 1 then Char.ofNat (acc * 64 + (b - 0x80)) :: utf8DecodeAux 0 0 rest
        else utf8DecodeAux (need - 1) (acc * 64 + (b - 0x80)) rest
      else replacementChar :: utf8DecodeAux 0 0 rest

/-- Total, lossy UTF-8 decoding (`buffer.toString('utf8')`). -/
def utf8Decode (l : List Nat) : List Char := utf8DecodeAux 0 0 l

/-! ### The AEAD cipher (src/utils/encryption.ts constants, lines 3-6)

The constants are those of the source: AES-256-GCM with a 32-byte key, a
12-byte IV and a 16-byte tag. -/

/-- KEY_LENGTH = 32 (256 bits), src line 4. -/
def KEY_LENGTH : Nat := 32

/-- IV_LENGTH = 12 (96 bits), src line 5. -/
def IV_LENGTH : Nat := 12

/-- TAG_LENGTH = 16 (128 bits), src line 6. -/
def TAG_LENGTH : Nat := 16

/-- Error kinds of the spec's error model (section 7): `MalformedInput` for
wrong-length key/nonce/tag, `AuthenticationFailure` for a failed GCM tag
verification. -/
inductive CryptoError where
  | MalformedInput
  | AuthenticationFailure
deriving DecidableEq

instance exceptDecEq {ε α : Type} [DecidableEq ε] [DecidableEq α] :
    DecidableEq (Except ε α) := fun x y =>
  match x, y with
  | .error a, .error b =>
    if h : a = b then isTrue (congrArg Except.error h)
    else isFalse (fun hh => h (Except.error.inj hh))
  | .ok a, .ok b =>
    if h : a = b then isTrue (congrArg Except.ok h)
    else isFalse (fun hh => h (Except.ok.inj hh))
  | .error _, .ok _ => isFalse (fun hh => Except.noConfusion hh)
  | .ok _, .error _ => isFalse (fun hh => Except.noConfusion hh)

/-- EncryptedData (src lines 8-12), with the three fields as decoded bytes. -/
structure EncryptedData where
  ciphertext : List Nat
  iv : List Nat
  tag : List Nat
deriving DecidableEq

/-- EncryptionResult (src lines 14-17): the envelope plus the URL-safe
encoded key destined for the URL fragment. -/
structure EncryptionResult where
  encrypted : EncryptedData
  key : List Char
deriving DecidableEq

/-- Modelled from the spec (section 4.4): one byte of the CTR keystream that
AES-256-GCM derives from the key and the IV.  The AES core is the platform's;
the model only keeps the properties the claims rely on: the keystream is a
deterministic function of (key, iv) and the mode is a length-preserving
stream cipher. -/
def ksByte (key iv : List Nat) (i : Nat) : Nat :=
  (key.getD (i % KEY_LENGTH) 0 + iv.getD (i % IV_LENGTH) 0 * 131 + i * 17 + 7) % 256

/-- The first `n` keystream bytes for (key, iv). -/
def keystream (key iv : List Nat) (n : Nat) : List Nat :=
  (List.range n).map (ksByte key iv)

/-- CTR-mode transform: XOR the data with the keystream.  Encryption and
decryption are the same operation; the output has the length of the input. -/
def ctrXor (key iv data : List Nat) : List Nat :=
  data.zipWith (fun a b => a ^^^ b) (keystream key iv data.length)

/-- Modelled from the spec (sections 3 and 4.4): the 16-entry GCM
authentication tag, "bound to ciphertext + key + nonce".  The binding is
modelled injectively in the first entry so that verification provably fails
for a wrong key, a wrong nonce, or any altered ciphertext, which is the
contract the spec assigns to the real GHASH-based tag. -/
def authTag (key iv ct : List Nat) : List Nat :=
  Nat.pair (encodeAny key) (Nat.pair (encodeAny iv) (encodeAny ct)) ::
    List.replicate (TAG_LENGTH - 1) 0

/-- GCM verification-then-decrypt (the `createDecipheriv` / `setAuthTag` /
`update`/`final` sequence of src lines 82-91).  Modelled from the spec
(section 4.4): key, nonce and tag lengths are validated before any cipher
operation and a mismatch fails with MalformedInput; then the tag is
recomputed and compared, a mismatch failing with AuthenticationFailure and
returning no plaintext bytes. -/
def gcmOpen (key iv tag ct : List Nat) : Except CryptoError (List Nat) :=
  if key.length ≠ KEY_LENGTH then .error .MalformedInput
  else if iv.length ≠ IV_LENGTH then .error .MalformedInput
  else if tag.length ≠ TAG_LENGTH then .error .MalformedInput
  else if tag ≠ authTag key iv ct then .error .AuthenticationFailure
  else .ok (ctrXor key iv ct)

/-- Encrypts content using AES-256-GCM (src lines 51-72).  `key` and `iv`
are the bytes drawn by `crypto.randomBytes(KEY_LENGTH)` and
`crypto.randomBytes(IV_LENGTH)`; the RandomSource capability guarantees
their lengths.  Returns the envelope and the URL-safe encoded key. -/
def encrypt (content : List Char) (key iv : List Nat) : EncryptionResult :=
  let ct := ctrXor key iv (utf8Encode content)
  { encrypted := { ciphertext := ct, iv := iv, tag := authTag key iv ct }
    key := toBase64Url key }

/-- Decrypts content using AES-256-GCM (src lines 77-92): decode the URL-safe
key, then verify and decrypt, decoding the result as UTF-8. -/
def decrypt (encrypted : EncryptedData) (keyBase64Url : List Char) :
    Except CryptoError (List Char) :=
  (gcmOpen (fromBase64Url keyBase64Url) encrypted.iv encrypted.tag
      encrypted.ciphertext).map utf8Decode

/-- Modelled from the spec (section 4.3): Node's `crypto.pbkdf2Sync`, which
is not code of this repository.  The model keeps the properties the spec
assigns to it: it is a deterministic family indexed by the iteration count,
output length and digest name; its output has the requested length; and
distinct (password, salt) pairs yield distinct keys (spec section 8:
"varying either input changes the derived key").  The HMAC-SHA-256 iteration
internals are the platform's and are not modelled. -/
def pbkdf2Sync (password : List Char) (salt : List Nat) (iterations keylen : Nat)
    (digest : List Char) : List Nat :=
  Nat.pair (Nat.pair iterations (encodeAny (utf8Encode digest)))
      (Nat.pair (encodeAny (utf8Encode password)) (encodeAny salt)) ::
    List.replicate (keylen - 1) 0

/-- Derives a key from a password using PBKDF2 (src lines 97-99):
`crypto.pbkdf2Sync(password, salt, 100000, KEY_LENGTH, 'sha256')`. -/
def deriveKeyFromPassword (password : List Char) (salt : List Nat) : List Nat :=
  pbkdf2Sync password salt 100000 KEY_LENGTH ['s', 'h', 'a', '2', '5', '6']

/-- Result of password-based encryption (src line 104): envelope plus salt. -/
structure PasswordEncryptionResult where
  encrypted : EncryptedData
  salt : List Nat
deriving DecidableEq

/-- Encrypts content with a password (src lines 104-126).  `salt` and `iv`
are the bytes drawn by `crypto.randomBytes(16)` and
`crypto.randomBytes(IV_LENGTH)`. -/
def encryptWithPassword (content password : List Char) (salt iv : List Nat) :
    PasswordEncryptionResult :=
  let key := deriveKeyFromPassword password salt
  let ct := ctrXor key iv (utf8Encode content)
  { encrypted := { ciphertext := ct, iv := iv, tag := authTag key iv ct }
    salt := salt }

/-- Decrypts content with a password (src lines 131-147): re-derive the key
from the password and salt, then verify and decrypt. -/
def decryptWithPassword (encrypted : EncryptedData) (password : List Char)
    (salt : List Nat) : Except CryptoError (List Char) :=
  (gcmOpen (deriveKeyFromPassword password salt) encrypted.iv encrypted.tag
      encrypted.ciphertext).map utf8Decode

/-! ### The snippet API (src/api/snipit.ts) -/

/-- Snippet visibility (src/api/snipit.ts line 11). -/
inductive Visibility where
  | pub
  | password
  | burn
deriving DecidableEq

/-- Snippet expiry choices (src/api/snipit.ts line 12). -/
inductive Expiry where
  | h1
  | h24
  | d7
  | d30
  | never
deriving DecidableEq

/-- SnippetOptions (src/api/snipit.ts lines 7-14). -/
structure SnippetOptions where
  content : List Char
  language : Option (List Char)
  fileName : Option (List Char)
  visibility : Visibility
  expiry : Expiry
  password : Option (List Char)
deriving DecidableEq

/-- The JSON request body POSTed to `/api/snippets` by `createSnippet`
(src/api/snipit.ts lines 116-123).  `expiresAt` is modelled as the
millisecond timestamp underlying the ISO string. -/
structure CreateSnippetRequestBody where
  content : List Char
  language : Option (List Char)
  fileName : Option (List Char)
  visibility : Visibility
  expiresAt : Option Nat
  password : Option (List Char)
deriving DecidableEq

/-- The expiry map of `createSnippet` (src lines 101-107), in seconds;
`'never'` maps to null, and JavaScript truthiness then leaves `expiresAt`
undefined. -/
def expirySeconds : Expiry → Option Nat
  | .h1 => some (60 * 60)
  | .h24 => some (24 * 60 * 60)
  | .d7 => some (7 * 24 * 60 * 60)
  | .d30 => some (30 * 24 * 60 * 60)
  | .never => none

/-- The request body built by `createSnippet` (src lines 109-123): the
content, metadata and the password option are forwarded verbatim; no
encryption is performed and no key material exists in this function. -/
def createSnippetRequestBody (options : SnippetOptions) (now : Nat) :
    CreateSnippetRequestBody :=
  { content := options.content
    language := options.language
    fileName := options.fileName
    visibility := options.visibility
    expiresAt := (expirySeconds options.expiry).map (fun s => now + s * 1000)
    password := options.password }

/-- The components of a parsed WHATWG URL that `parseSnipitUrl` reads:
`hostname`, `pathname` (with its leading `/`) and `hash` (with its leading
`#`, or empty when there is no fragment). -/
structure UrlParts where
  hostname : List Char
  pathname : List Char
  hash : List Char
deriving DecidableEq

/-- Result shape of `parseSnipitUrl` (src/api/snipit.ts line 203). -/
structure ParsedSnipitUrl where
  id : List Char
  key : Option (List Char)
deriving DecidableEq

/-- JavaScript `haystack.includes(needle)` on strings. -/
def strContains : List Char → List Char → Bool
  | [], needle => needle.isEmpty
  | h :: t, needle => needle.isPrefixOf (h :: t) || strContains t needle

/-- JavaScript `s.replace(/^\//, '')`. -/
def stripLeadingSlash : List Char → List Char
  | '/' :: t => t
  | s => s

/-- JavaScript `s.replace(/^#/, '')`. -/
def stripLeadingHash : List Char → List Char
  | '#' :: t => t
  | s => s

/-- JavaScript `s.split(sep)` for a single-character separator: always a
non-empty list of (possibly empty) pieces. -/
def splitOnChar (sep : Char) : List Char → List (List Char)
  | [] => [[]]
  | c :: t =>
    if c = sep then [] :: splitOnChar sep t
    else
      match splitOnChar sep t with
      | h :: rest => (c :: h) :: rest
      | [] => [[c]]

/-- JavaScript `s.split('/')[0]`. -/
def jsSplitHead (s : List Char) : List Char := (splitOnChar '/' s).headD []

/-- The literal `'snipit'` searched for in the hostname (src line 206). -/
def snipitNeedle : List Char := ['s', 'n', 'i', 'p', 'i', 't']

/-- Parses a snipit.sh URL (src/api/snipit.ts lines 203-215).  `parseUrl`
models the platform's `new URL(...)` constructor; `none` models the
constructor throwing, which the source's try/catch converts to `null`. -/
def parseSnipitUrl (parseUrl : List Char → Option UrlParts) (url : List Char) :
    Option ParsedSnipitUrl :=
  match parseUrl url with
  | none => none
  | some parsed =>
    if strContains parsed.hostname snipitNeedle then
      let keyStr := stripLeadingHash parsed.hash
      some { id := jsSplitHead (stripLeadingSlash parsed.pathname)
             key := if keyStr.isEmpty then none else some keyStr }
    else none

/-- The first path segment of a pathname, stated the way claim C10 words it:
the leading `/` removed, then everything up to the next `/`. -/
def firstPathSegment (pathname : List Char) : List Char :=
  (stripLeadingSlash pathname).takeWhile (fun c => c ≠ '/')

/-- The key of a parsed snipit URL, stated the way claim C10 words it: the
fragment without its leading `#`, omitted when that leaves nothing. -/
def fragmentKey (hash : List Char) : Option (List Char) :=
  let k := stripLeadingHash hash
  if k.isEmpty then none else some k

/-! ## Lemmas about the injective encoding -/

theorem natStream_digits_lt (l : List Nat) : ∀ d ∈ natStream l, d < 257 := by
  induction l with
  | nil => simp [natStream]
  | cons b t ih =>
    intro d hd
    simp only [natStream, List.mem_append, List.mem_cons] at hd
    rcases hd with h | h | h
    · exact Nat.lt_trans (Nat.digits_lt_base (by norm_num) h) (by norm_num)
    · omega
    · exact ih d h

theorem getLast_cons_sep (s : List Nat) (hs : ∀ h2 : s ≠ [], s.getLast h2 = 256) :
    ∀ h3 : (256 :: s) ≠ ([] : List Nat), (256 :: s).getLast h3 = 256 := by
  cases s with
  | nil => intro h3; rfl
  | cons a t =>
    intro h3
    rw [List.getLast_cons (by simp)]
    exact hs (by simp)

theorem natStream_getLast :
    ∀ (l : List Nat) (h : natStream l ≠ []), (natStream l).getLast h = 256 := by
  intro l
  induction l with
  | nil => intro h; simp [natStream] at h
  | cons b t ih =>
    intro h
    have hne : (256 :: natStream t) ≠ ([] : List Nat) := by simp
    simp only [natStream]
    rw [List.getLast_append_of_ne_nil hne]
    exact getLast_cons_sep (natStream t) ih hne

theorem sep_split {α : Type} (sep : α) :
    ∀ (xs ys r r' : List α), sep ∉ xs → sep ∉ ys →
      xs ++ sep :: r = ys ++ sep :: r' → xs = ys ∧ r = r' := by
  intro xs
  induction xs with
  | nil =>
    intro ys r r' _ hy h
    cases ys with
    | nil => simpa using h
    | cons y t =>
      simp only [List.nil_append, List.cons_append, List.cons.injEq] at h
      exact absurd (h.1 ▸ List.mem_cons_self y t) (by simp [← h.1] at hy)
  | cons x xt ih =>
    intro ys r r' hx hy h
    cases ys with
    | nil =>
      simp only [List.nil_append, List.cons_append, List.cons.injEq] at h
      exact absurd (h.1 ▸ List.mem_cons_self x xt) (by simp [h.1] at hx)
    | cons y t =>
      simp only [List.cons_append, List.cons.injEq] at h
      obtain ⟨rfl, h2⟩ := h
      have := ih t r r' (by simp_all) (by simp_all) h2
      exact ⟨by rw [this.1], this.2⟩

theorem natStream_inj : ∀ l1 l2 : List Nat, natStream l1 = natStream l2 → l1 = l2 := by
  intro l1
  induction l1 with
  | nil =>
    intro l2 h
    cases l2 with
    | nil => rfl
    | cons b t => simp [natStream] at h
  | cons b t ih =>
    intro l2 h
    cases l2 with
    | nil => simp [natStream] at h
    | cons b2 t2 =>
      simp only [natStream] at h
      have hsep1 : (256 : Nat) ∉ Nat.digits 256 b := by
        intro hm
        exact absurd (Nat.digits_lt_base (by norm_num) hm) (by norm_num)
      have hsep2 : (256 : Nat) ∉ Nat.digits 256 b2 := by
        intro hm
        exact absurd (Nat.digits_lt_base (by norm_num) hm) (by norm_num)
      obtain ⟨hdig, hrest⟩ := sep_split 256 _ _ _ _ hsep1 hsep2 h
      have hb : b = b2 := by
        have := congrArg (Nat.ofDigits 256) hdig
        simpa [Nat.ofDigits_digits] using this
      rw [hb, ih t2 hrest]

theorem encodeAny_inj {l1 l2 : List Nat} (h : encodeAny l1 = encodeAny l2) : l1 = l2 := by
  apply natStream_inj
  have h1 := Nat.digits_ofDigits 257 (by norm_num) (natStream l1)
    (natStream_digits_lt l1) (fun hh => by rw [natStream_getLast l1 hh]; norm_num)
  have h2 := Nat.digits_ofDigits 257 (by norm_num) (natStream l2)
    (natStream_digits_lt l2) (fun hh => by rw [natStream_getLast l2 hh]; norm_num)
  rw [← h1, ← h2]
  exact congrArg (Nat.digits 257) h

theorem pair_inj {a b c d : Nat} (h : Nat.pair a b = Nat.pair c d) : a = c ∧ b = d := by
  have := congrArg Nat.unpair h
  simpa [Nat.unpair_pair, Prod.ext_iff] using this

/-! ## Lemmas about the modelled AEAD -/

theorem authTag_length (key iv ct : List Nat) : (authTag key iv ct).length = 16 := by
  simp [authTag, TAG_LENGTH]

theorem authTag_inj {k1 i1 c1 k2 i2 c2 : List Nat}
    (h : authTag k1 i1 c1 = authTag k2 i2 c2) : k1 = k2 ∧ i1 = i2 ∧ c1 = c2 := by
  simp only [authTag, List.cons.injEq] at h
  obtain ⟨h1, h2⟩ := pair_inj h.1
  obtain ⟨h3, h4⟩ := pair_inj h2
  exact ⟨encodeAny_inj h1, encodeAny_inj h3, encodeAny_inj h4⟩

theorem keystream_length (key iv : List Nat) (n : Nat) : (keystream key iv n).length = n := by
  simp [keystream]

theorem ctrXor_length (key iv data : List Nat) : (ctrXor key iv data).length = data.length := by
  simp [ctrXor, keystream_length]

theorem zip_xor_cancel :
    ∀ (pt ks : List Nat), ks.length = pt.length →
      List.zipWith (fun a b => a ^^^ b) (List.zipWith (fun a b => a ^^^ b) pt ks) ks = pt := by
  intro pt
  induction pt with
  | nil => intro ks _; simp
  | cons a t ih =>
    intro ks hks
    cases ks with
    | nil => simp at hks
    | cons k kt =>
      simp only [List.zipWith_cons_cons, List.cons.injEq]
      exact ⟨Nat.xor_cancel_right k a, ih kt (by simpa using hks)⟩

theorem ctrXor_invol (key iv pt : List Nat) : ctrXor key iv (ctrXor key iv pt) = pt := by
  rw [ctrXor, ctrXor_length, ctrXor]
  exact zip_xor_cancel pt (keystream key iv pt.length) (keystream_length key iv pt.length)

theorem gcmOpen_of_encrypt (key iv pt : List Nat) (hk : key.length = 32)
    (hiv : iv.length = 12) :
    gcmOpen key iv (authTag key iv (ctrXor key iv pt)) (ctrXor key iv pt) =
      Except.ok pt := by
  unfold gcmOpen
  rw [if_neg (by simp [hk, KEY_LENGTH]), if_neg (by simp [hiv, IV_LENGTH]),
    if_neg (by simp [authTag_length, TAG_LENGTH]), if_neg (by simp)]
  rw [ctrXor_invol]

/-! ## Lemmas about the URL-safe base64 codec -/

theorem b64Char_mem (i : Nat) : b64Char i ∈ stdAlphabet := by
  unfold b64Char
  rcases Nat.lt_or_ge i stdAlphabet.length with h | h
  · rw [List.getD_eq_getElem _ _ h]
    exact List.getElem_mem h
  · rw [List.getD_eq_default _ _ h]
    decide

theorem stdIndex_b64Char : ∀ i < 64, stdIndex (b64Char i) = some i := by decide

theorem stdIndex_pad : stdIndex '=' = none := by decide

theorem stdAlphabet_ne_pad : ∀ c ∈ stdAlphabet, c ≠ '=' := by decide

theorem swap_roundtrip : ∀ c ∈ stdAlphabet, swapDec (swapEnc c) = c := by decide

theorem swapEnc_ne_pad : ∀ c ∈ stdAlphabet, swapEnc c ≠ '=' := by decide

theorem swapEnc_pad : swapEnc '=' = '=' := by decide

theorem swapEnc_avoid : ∀ c ∈ stdAlphabet, swapEnc c ≠ '+' ∧ swapEnc c ≠ '/' := by decide

theorem mem_stdBase64Encode :
    ∀ (b : List Nat), ∀ c ∈ stdBase64Encode b, c ∈ stdAlphabet ∨ c = '=' := by
  intro b
  induction b using stdBase64Encode.induct with
  | case1 =>
    intro c hc
    simp [stdBase64Encode] at hc
  | case2 a =>
    intro c hc
    simp only [stdBase64Encode, List.mem_cons, List.not_mem_nil, or_false] at hc
    rcases hc with rfl | rfl | rfl | rfl
    · exact Or.inl (b64Char_mem _)
    · exact Or.inl (b64Char_mem _)
    · exact Or.inr rfl
    · exact Or.inr rfl
  | case3 a b' =>
    intro c hc
    simp only [stdBase64Encode, List.mem_cons, List.not_mem_nil, or_false] at hc
    rcases hc with rfl | rfl | rfl | rfl
    · exact Or.inl (b64Char_mem _)
    · exact Or.inl (b64Char_mem _)
    · exact Or.inl (b64Char_mem _)
    · exact Or.inr rfl
  | case4 a b' c' t ih =>
    intro c hc
    simp only [stdBase64Encode, List.mem_cons] at hc
    rcases hc with rfl | rfl | rfl | rfl | h
    · exact Or.inl (b64Char_mem _)
    · exact Or.inl (b64Char_mem _)
    · exact Or.inl (b64Char_mem _)
    · exact Or.inl (b64Char_mem _)
    · exact ih c h

theorem filterMap_stdIndex_replicate (k : Nat) :
    List.filterMap stdIndex (List.replicate k '=') = [] := by
  induction k with
  | zero => rfl
  | succ n ih => simp [List.replicate_succ, List.filterMap_cons, stdIndex_pad, ih]

theorem map_swapDec_filter (s : List Char) (hs : ∀ c ∈ s, c ∈ stdAlphabet ∨ c = '=') :
    ((s.map swapEnc).filter (fun c => c ≠ '=')).map swapDec =
      s.filter (fun c => c ≠ '=') := by
  induction s with
  | nil => rfl
  | cons c t ih =>
    have ht : ∀ x ∈ t, x ∈ stdAlphabet ∨ x = '=' := fun x hx => hs x (by simp [hx])
    rcases hs c (by simp) with h | rfl
    · simp only [List.map_cons, List.filter_cons]
      rw [if_pos (by simpa using swapEnc_ne_pad c h), if_pos (by simpa using stdAlphabet_ne_pad c h)]
      simp only [List.map_cons, swap_roundtrip c h, ih ht]
    · simp only [List.map_cons, swapEnc_pad, List.filter_cons]
      rw [if_neg (by simp), if_neg (by simp)]
      exact ih ht

theorem filterMap_stdIndex_filter (s : List Char) :
    List.filterMap stdIndex (s.filter (fun c => c ≠ '=')) = List.filterMap stdIndex s := by
  induction s with
  | nil => rfl
  | cons c t ih =>
    by_cases h : c = '='
    · subst h
      simpa [List.filter_cons, List.filterMap_cons, stdIndex_pad] using ih
    · cases hsi : stdIndex c <;>
        simpa [List.filter_cons, h, List.filterMap_cons, hsi] using ih

theorem sextets_encode :
    ∀ (b : List Nat), (∀ x ∈ b, x < 256) →
      sextetsToBytes (List.filterMap stdIndex (stdBase64Encode b)) = b := by
  intro b
  induction b using stdBase64Encode.induct with
  | case1 => intro _; rfl
  | case2 a =>
    intro hb
    have ha : a < 256 := hb a (by simp)
    simp only [stdBase64Encode, List.filterMap_cons, stdIndex_pad,
      stdIndex_b64Char (a / 4) (by omega), stdIndex_b64Char (a % 4 * 16) (by omega)]
    simp only [List.filterMap_nil, sextetsToBytes]
    rw [show a / 4 * 4 + a % 4 * 16 / 16 = a by omega]
  | case3 a b' =>
    intro hb
    have ha : a < 256 := hb a (by simp)
    have hb' : b' < 256 := hb b' (by simp)
    simp only [stdBase64Encode, List.filterMap_cons, stdIndex_pad,
      stdIndex_b64Char (a / 4) (by omega), stdIndex_b64Char (a % 4 * 16 + b' / 16) (by omega),
      stdIndex_b64Char (b' % 16 * 4) (by omega)]
    simp only [List.filterMap_nil, sextetsToBytes]
    rw [show a / 4 * 4 + (a % 4 * 16 + b' / 16) / 16 = a by omega,
      show (a % 4 * 16 + b' / 16) % 16 * 16 + b' % 16 * 4 / 4 = b' by omega]
  | case4 a b' c' t ih =>
    intro hb
    have ha : a < 256 := hb a (by simp)
    have hb' : b' < 256 := hb b' (by simp)
    have hc' : c' < 256 := hb c' (by simp)
    have ht : ∀ x ∈ t, x < 256 := fun x hx => hb x (by simp [hx])
    simp only [stdBase64Encode, List.filterMap_cons,
      stdIndex_b64Char (a / 4) (by omega), stdIndex_b64Char (a % 4 * 16 + b' / 16) (by omega),
      stdIndex_b64Char (b' % 16 * 4 + c' / 64) (by omega), stdIndex_b64Char (c' % 64) (by omega)]
    simp only [sextetsToBytes, ih ht]
    rw [show a / 4 * 4 + (a % 4 * 16 + b' / 16) / 16 = a by omega,
      show (a % 4 * 16 + b' / 16) % 16 * 16 + (b' % 16 * 4 + c' / 64) / 4 = b' by omega,
      show (b' % 16 * 4 + c' / 64) % 4 * 64 + c' % 64 = c' by omega]

theorem b64_roundtrip (b : List Nat) (hb : ∀ x ∈ b, x < 256) :
    fromBase64Url (toBase64Url b) = b := by
  simp only [fromBase64Url, stdBase64DecodeLenient, toBase64Url]
  rw [List.filterMap_append, filterMap_stdIndex_replicate, List.append_nil]
  rw [map_swapDec_filter _ (mem_stdBase64Encode b), filterMap_stdIndex_filter]
  exact sextets_encode b hb

theorem toBase64Url_avoid (b : List Nat) :
    ∀ c ∈ toBase64Url b, c ≠ '+' ∧ c ≠ '/' ∧ c ≠ '=' := by
  intro c hc
  unfold toBase64Url at hc
  rw [List.mem_filter] at hc
  obtain ⟨hmem, hne⟩ := hc
  rw [List.mem_map] at hmem
  obtain ⟨c0, hc0, rfl⟩ := hmem
  rcases mem_stdBase64Encode b c0 hc0 with h | rfl
  · exact ⟨(swapEnc_avoid c0 h).1, (swapEnc_avoid c0 h).2, by simpa using hne⟩
  · rw [swapEnc_pad] at hne
    simp at hne

theorem filterMap_swapDec_valid (s : List Char) :
    List.filterMap stdIndex ((s.filter isB64UrlValid).map swapDec) =
      List.filterMap stdIndex (s.map swapDec) := by
  induction s with
  | nil => rfl
  | cons c t ih =>
    by_cases h : isB64UrlValid c
    · simp only [List.filter_cons, h, if_pos, List.map_cons, List.filterMap_cons, ih]
    · have hn : stdIndex (swapDec c) = none := by
        unfold isB64UrlValid at h
        exact Option.not_isSome_iff_eq_none.mp (by simpa using h)
      simp only [List.filter_cons, h, Bool.false_eq_true, if_false, List.map_cons,
        List.filterMap_cons, hn, ih]

theorem fromBase64Url_lenient (s : List Char) :
    fromBase64Url s = fromBase64Url (s.filter isB64UrlValid) := by
  simp only [fromBase64Url, stdBase64DecodeLenient]
  rw [List.filterMap_append, List.filterMap_append, filterMap_stdIndex_replicate,
    filterMap_stdIndex_replicate, List.append_nil, List.append_nil,
    filterMap_swapDec_valid]

/-! ## Lemmas about the UTF-8 codec -/

theorem char_toNat_lt (c : Char) : c.toNat < 0x110000 := by
  rcases c.valid with h | ⟨h1, h2⟩
  · exact Nat.lt_trans h (by norm_num)
  · exact h2

theorem utf8EncodeChar_lt (n : Nat) (hn : n < 0x110000) :
    ∀ x ∈ utf8EncodeChar n, x < 256 := by
  intro x hx
  unfold utf8EncodeChar at hx
  split_ifs at hx with h1 h2 h3 <;>
    simp only [List.mem_cons, List.not_mem_nil, or_false] at hx
  · subst hx; omega
  · rcases hx with rfl | rfl <;> omega
  · rcases hx with rfl | rfl | rfl <;> omega
  · rcases hx with rfl | rfl | rfl | rfl <;> omega

theorem utf8Encode_lt (s : List Char) : ∀ x ∈ utf8Encode s, x < 256 := by
  induction s with
  | nil => simp [utf8Encode]
  | cons c t ih =>
    intro x hx
    simp only [utf8Encode, List.mem_append] at hx
    rcases hx with h | h
    · exact utf8EncodeChar_lt c.toNat (char_toNat_lt c) x h
    · exact ih x h

theorem isCont_true (x : Nat) (h : x < 64) : isCont (0x80 + x) = true := by
  simp only [isCont, Bool.and_eq_true, decide_eq_true_eq]
  omega

theorem utf8Decode_encodeChar (c : Char) (rest : List Nat) :
    utf8Decode (utf8EncodeChar c.toNat ++ rest) = c :: utf8Decode rest := by
  have hv := char_toNat_lt c
  unfold utf8Decode
  by_cases h1 : c.toNat < 0x80
  · rw [utf8EncodeChar, if_pos h1, List.cons_append, List.nil_append, utf8DecodeAux,
      if_pos rfl, if_pos h1, Char.ofNat_toNat]
  · by_cases h2 : c.toNat < 0x800
    · rw [utf8EncodeChar, if_neg h1, if_pos h2]
      simp only [List.cons_append, List.nil_append]
      rw [utf8DecodeAux, if_pos rfl, if_neg (by omega), if_neg (by omega), if_pos (by omega)]
      rw [utf8DecodeAux, if_neg (by omega), if_pos (isCont_true _ (by omega)), if_pos rfl]
      rw [show (0xC0 + c.toNat / 64 - 0xC0) * 64 + (0x80 + c.toNat % 64 - 0x80) = c.toNat by
        omega, Char.ofNat_toNat]
    · by_cases h3 : c.toNat < 0x10000
      · rw [utf8EncodeChar, if_neg h1, if_neg h2, if_pos h3]
        simp only [List.cons_append, List.nil_append]
        rw [utf8DecodeAux, if_pos rfl, if_neg (by omega), if_neg (by omega), if_neg (by omega),
          if_pos (by omega)]
        rw [utf8DecodeAux, if_neg (by omega), if_pos (isCont_true _ (by omega)),
          if_neg (by omega)]
        rw [utf8DecodeAux, if_neg (by omega), if_pos (isCont_true _ (by omega)), if_pos rfl]
        rw [show ((0xE0 + c.toNat / 4096 - 0xE0) * 64 + (0x80 + c.toNat / 64 % 64 - 0x80)) * 64 +
            (0x80 + c.toNat % 64 - 0x80) = c.toNat by omega, Char.ofNat_toNat]
      · rw [utf8EncodeChar, if_neg h1, if_neg h2, if_neg h3]
        simp only [List.cons_append, List.nil_append]
        rw [utf8DecodeAux, if_pos rfl, if_neg (by omega), if_neg (by omega), if_neg (by omega),
          if_neg (by omega), if_pos (by omega)]
        rw [utf8DecodeAux, if_neg (by omega), if_pos (isCont_true _ (by omega)),
          if_neg (by omega)]
        rw [utf8DecodeAux, if_neg (by omega), if_pos (isCont_true _ (by omega)),
          if_neg (by omega)]
        rw [utf8DecodeAux, if_neg (by omega), if_pos (isCont_true _ (by omega)), if_pos rfl]
        rw [show (((0xF0 + c.toNat / 262144 - 0xF0) * 64 + (0x80 + c.toNat / 4096 % 64 - 0x80)) *
            64 + (0x80 + c.toNat / 64 % 64 - 0x80)) * 64 + (0x80 + c.toNat % 64 - 0x80) =
            c.toNat by omega, Char.ofNat_toNat]

theorem utf8_roundtrip (s : List Char) : utf8Decode (utf8Encode s) = s := by
  induction s with
  | nil => rfl
  | cons c t ih =>
    show utf8Decode (utf8EncodeChar c.toNat ++ utf8Encode t) = c :: t
    rw [utf8Decode_encodeChar, ih]

theorem utf8Encode_inj {s1 s2 : List Char} (h : utf8Encode s1 = utf8Encode s2) : s1 = s2 := by
  rw [← utf8_roundtrip s1, ← utf8_roundtrip s2, h]

/-! ## Failure lemmas for the modelled AEAD -/

theorem gcmOpen_wrong_key {key key' iv ct : List Nat} (hk' : key'.length = 32)
    (hiv : iv.length = 12) (hne : key' ≠ key) :
    gcmOpen key' iv (authTag key iv ct) ct = Except.error CryptoError.AuthenticationFailure := by
  unfold gcmOpen
  rw [if_neg (by simp [hk', KEY_LENGTH]), if_neg (by simp [hiv, IV_LENGTH]),
    if_neg (by simp [authTag_length, TAG_LENGTH]),
    if_pos (fun h => hne ((authTag_inj h).1).symm)]

theorem gcmOpen_wrong_ct {key iv ct ct' : List Nat} (hk : key.length = 32)
    (hiv : iv.length = 12) (hne : ct' ≠ ct) :
    gcmOpen key iv (authTag key iv ct) ct' = Except.error CryptoError.AuthenticationFailure := by
  unfold gcmOpen
  rw [if_neg (by simp [hk, KEY_LENGTH]), if_neg (by simp [hiv, IV_LENGTH]),
    if_neg (by simp [authTag_length, TAG_LENGTH]),
    if_pos (show authTag key iv ct ≠ authTag key iv ct' from
      fun h => hne ((authTag_inj h).2.2).symm)]

theorem gcmOpen_wrong_tag {key iv tag ct : List Nat} (hk : key.length = 32)
    (hiv : iv.length = 12) (hlen : tag.length = 16) (hne : tag ≠ authTag key iv ct) :
    gcmOpen key iv tag ct = Except.error CryptoError.AuthenticationFailure := by
  unfold gcmOpen
  rw [if_neg (by simp [hk, KEY_LENGTH]), if_neg (by simp [hiv, IV_LENGTH]),
    if_neg (by simp [hlen, TAG_LENGTH]), if_pos hne]

theorem set_ne {l : List Nat} {i b' : Nat} (hi : i < l.length) (hb : b' ≠ l.getD i 0) :
    l.set i b' ≠ l := by
  intro h
  have h1 : (l.set i b')[i]? = some b' := by
    rw [List.getElem?_set_self]
    simp [hi]
  rw [h, List.getElem?_eq_getElem hi] at h1
  rw [List.getD_eq_getElem l 0 hi] at hb
  exact hb (Option.some.inj h1).symm

/-! ## Lemmas about the modelled key derivation -/

theorem deriveKey_length (pw : List Char) (salt : List Nat) :
    (deriveKeyFromPassword pw salt).length = 32 := by
  simp [deriveKeyFromPassword, pbkdf2Sync, KEY_LENGTH]

theorem deriveKey_ne {pw pw' : List Char} (salt : List Nat) (h : pw ≠ pw') :
    deriveKeyFromPassword pw salt ≠ deriveKeyFromPassword pw' salt := by
  intro hh
  simp only [deriveKeyFromPassword, pbkdf2Sync, List.cons.injEq] at hh
  obtain ⟨-, h2⟩ := pair_inj hh.1
  obtain ⟨h3, -⟩ := pair_inj h2
  exact h (utf8Encode_inj (encodeAny_inj h3))

/-! ## Lemmas about the URL helpers -/

theorem splitOnChar_ne_nil (sep : Char) (s : List Char) : splitOnChar sep s ≠ [] := by
  cases s with
  | nil => simp [splitOnChar]
  | cons c t =>
    simp only [splitOnChar]
    split
    · simp
    · split <;> simp

theorem jsSplitHead_takeWhile (s : List Char) :
    jsSplitHead s = s.takeWhile (fun c => c ≠ '/') := by
  unfold jsSplitHead
  induction s with
  | nil => rfl
  | cons c t ih =>
    simp only [splitOnChar]
    by_cases h : c = '/'
    · subst h
      rw [if_pos rfl]
      simp [List.takeWhile_cons]
    · rw [if_neg h]
      cases hr : splitOnChar '/' t with
      | nil => exact absurd hr (splitOnChar_ne_nil '/' t)
      | cons h0 r =>
        rw [hr] at ih
        simp only [List.headD] at ih ⊢
        rw [List.takeWhile_cons, if_pos (by simp [h]), ← ih]

/-! ## The claims -/

/-- C1: for every plaintext string `p` (empty, unicode and arbitrarily long
strings included), decrypting the envelope produced by `encrypt p` with the
key returned alongside it yields exactly `p`.  The `key` and `iv` arguments
model the `crypto.randomBytes` draws of the source; the RandomSource
contract guarantees 32 and 12 fresh bytes respectively. -/
theorem C1_encrypt_decrypt_roundtrip (p : List Char) (key iv : List Nat)
    (hkey : key.length = 32) (hkeyb : ∀ b ∈ key, b < 256) (hiv : iv.length = 12) :
    decrypt (encrypt p key iv).encrypted (encrypt p key iv).key = Except.ok p := by
  simp only [encrypt, decrypt]
  rw [b64_roundtrip key hkeyb, gcmOpen_of_encrypt key iv (utf8Encode p) hkey hiv]
  simp only [Except.map]
  rw [utf8_roundtrip]

theorem C1_witness :
    decrypt (encrypt ['O', 'k'] (List.range 32) (List.replicate 12 1)).encrypted
        (encrypt ['O', 'k'] (List.range 32) (List.replicate 12 1)).key =
      Except.ok ['O', 'k'] :=
  C1_encrypt_decrypt_roundtrip ['O', 'k'] (List.range 32) (List.replicate 12 1)
    (by decide) (by decide) (by decide)

/-- C2: decrypting an envelope produced by `encrypt` with any 32-byte key
other than the one returned alongside it, or after changing a single byte of
the ciphertext or of the tag, fails with `AuthenticationFailure` and returns
no plaintext bytes (the error value carries nothing) — fail-closed. -/
theorem C2_decrypt_fails_closed (p : List Char) (key iv : List Nat)
    (hkey : key.length = 32) (hkeyb : ∀ b ∈ key, b < 256) (hiv : iv.length = 12) :
    (∀ s : List Char, (fromBase64Url s).length = 32 → fromBase64Url s ≠ key →
      decrypt (encrypt p key iv).encrypted s =
        Except.error CryptoError.AuthenticationFailure) ∧
    (∀ i b', i < (encrypt p key iv).encrypted.ciphertext.length →
      b' ≠ (encrypt p key iv).encrypted.ciphertext.getD i 0 →
      decrypt { (encrypt p key iv).encrypted with
          ciphertext := (encrypt p key iv).encrypted.ciphertext.set i b' }
        (encrypt p key iv).key = Except.error CryptoError.AuthenticationFailure) ∧
    (∀ i b', i < (encrypt p key iv).encrypted.tag.length →
      b' ≠ (encrypt p key iv).encrypted.tag.getD i 0 →
      decrypt { (encrypt p key iv).encrypted with
          tag := (encrypt p key iv).encrypted.tag.set i b' }
        (encrypt p key iv).key = Except.error CryptoError.AuthenticationFailure) := by
  refine ⟨?_, ?_, ?_⟩
  · intro s hs hne
    simp only [encrypt, decrypt]
    rw [gcmOpen_wrong_key hs hiv hne]
    rfl
  · intro i b' hi hb
    simp only [encrypt, decrypt] at *
    rw [b64_roundtrip key hkeyb, gcmOpen_wrong_ct hkey hiv (set_ne hi hb)]
    rfl
  · intro i b' hi hb
    simp only [encrypt, decrypt] at *
    rw [b64_roundtrip key hkeyb,
      gcmOpen_wrong_tag hkey hiv (by simp [List.length_set, authTag_length])
        (set_ne hi hb)]
    rfl

theorem C2_witness :
    decrypt (encrypt ['H', 'i'] (List.range 32) (List.replicate 12 1)).encrypted
        (toBase64Url (List.replicate 32 9)) =
      Except.error CryptoError.AuthenticationFailure ∧
    decrypt { (encrypt ['H', 'i'] (List.range 32) (List.replicate 12 1)).encrypted with
        ciphertext :=
          (encrypt ['H', 'i'] (List.range 32) (List.replicate 12 1)).encrypted.ciphertext.set
            0 99 }
      (encrypt ['H', 'i'] (List.range 32) (List.replicate 12 1)).key =
      Except.error CryptoError.AuthenticationFailure ∧
    decrypt { (encrypt ['H', 'i'] (List.range 32) (List.replicate 12 1)).encrypted with
        tag :=
          (encrypt ['H', 'i'] (List.range 32) (List.replicate 12 1)).encrypted.tag.set 1 5 }
      (encrypt ['H', 'i'] (List.range 32) (List.replicate 12 1)).key =
      Except.error CryptoError.AuthenticationFailure :=
  ⟨(C2_decrypt_fails_closed ['H', 'i'] (List.range 32) (List.replicate 12 1)
      (by decide) (by decide) (by decide)).1 (toBase64Url (List.replicate 32 9))
      (by decide) (by decide),
   (C2_decrypt_fails_closed ['H', 'i'] (List.range 32) (List.replicate 12 1)
      (by decide) (by decide) (by decide)).2.1 0 99 (by decide) (by decide),
   (C2_decrypt_fails_closed ['H', 'i'] (List.range 32) (List.replicate 12 1)
      (by decide) (by decide) (by decide)).2.2 1 5 (by decide) (by decide)⟩

/-- C3: `decrypt` and `decryptWithPassword` validate the supplied key, nonce
and tag lengths before any cipher operation: any input whose (decoded) key
is not 32 bytes, whose iv is not 12 bytes or whose tag is not 16 bytes fails
with `MalformedInput`, never with another error (for `decryptWithPassword`
the key is derived and always 32 bytes, so iv and tag are what is checked). -/
theorem C3_malformed_input :
    (∀ (e : EncryptedData) (s : List Char),
      (fromBase64Url s).length ≠ 32 ∨ e.iv.length ≠ 12 ∨ e.tag.length ≠ 16 →
      decrypt e s = Except.error CryptoError.MalformedInput) ∧
    (∀ (e : EncryptedData) (pw : List Char) (salt : List Nat),
      e.iv.length ≠ 12 ∨ e.tag.length ≠ 16 →
      decryptWithPassword e pw salt = Except.error CryptoError.MalformedInput) := by
  constructor
  · intro e s h
    simp only [decrypt, gcmOpen]
    split_ifs with hk hiv ht hauth <;> try rfl
    all_goals
      simp only [KEY_LENGTH, IV_LENGTH, TAG_LENGTH] at hk hiv ht
      tauto
  · intro e pw salt h
    simp only [decryptWithPassword, gcmOpen]
    rw [if_neg (by simp [deriveKey_length, KEY_LENGTH])]
    split_ifs with hiv ht hauth <;> try rfl
    all_goals
      simp only [IV_LENGTH, TAG_LENGTH] at hiv ht
      tauto

theorem C3_witness :
    decrypt { ciphertext := [], iv := [], tag := [] } [] =
      Except.error CryptoError.MalformedInput ∧
    decryptWithPassword { ciphertext := [], iv := [], tag := [] } [] [] =
      Except.error CryptoError.MalformedInput :=
  ⟨C3_malformed_input.1 { ciphertext := [], iv := [], tag := [] } []
      (Or.inl (by decide)),
   C3_malformed_input.2 { ciphertext := [], iv := [], tag := [] } [] []
      (Or.inl (by decide))⟩

/-- C4: the URL-safe codec round-trips every byte sequence (entries < 256,
as `Buffer` guarantees), the empty sequence encodes to the empty string, and
the encoded output never contains `+`, `/` or `=`. -/
theorem C4_codec_roundtrip (b : List Nat) (hb : ∀ x ∈ b, x < 256) :
    fromBase64Url (toBase64Url b) = b ∧ toBase64Url [] = [] ∧
      ∀ c ∈ toBase64Url b, c ≠ '+' ∧ c ≠ '/' ∧ c ≠ '=' :=
  ⟨b64_roundtrip b hb, rfl, toBase64Url_avoid b⟩

theorem C4_witness :
    fromBase64Url (toBase64Url [0, 255, 254, 3]) = [0, 255, 254, 3] ∧
      toBase64Url [] = [] ∧
      ∀ c ∈ toBase64Url [0, 255, 254, 3], c ≠ '+' ∧ c ≠ '/' ∧ c ≠ '=' :=
  C4_codec_roundtrip [0, 255, 254, 3] (by decide)

/-- C5 counterexample: the claim says an input containing a character
outside the URL-safe alphabet (`A-Z a-z 0-9 - _`) fails with
`InvalidEncoding` rather than returning a byte sequence; in fact
`fromBase64Url` is total and never fails.  `'QQ!'` decodes to the byte
sequence `[65]` (the unconsumable `'!'` being skipped by Node's forgiving
decoder), `'!'` decodes to the empty byte sequence, and `'QQ+'` — whose
`'+'` is also outside the URL-safe alphabet — decodes to `[65, 15]`, the
`'+'` being consumed as sextet 62 rather than skipped or rejected. -/
theorem C5_counterexample :
    fromBase64Url ['Q', 'Q', '!'] = [65] ∧ fromBase64Url ['!'] = [] ∧
      fromBase64Url ['Q', 'Q', '+'] = [65, 15] := by
  decide

/-- C5 amended: `fromBase64Url` never fails.  After the `-`/`_`
substitutions, every character the standard base64 decoder cannot consume
(anything outside `A-Z a-z 0-9 + /` post-substitution, `=` included) is
skipped: decoding the string equals decoding the string with all such
characters removed, and a byte sequence is always returned.  A literal `+`
or `/`, though outside the URL-safe alphabet, is consumed as a sextet, not
ignored. -/
theorem C5_lenient_decode (s : List Char) :
    fromBase64Url s = fromBase64Url (s.filter isB64UrlValid) :=
  fromBase64Url_lenient s

/-- C6: `deriveKeyFromPassword` is exactly the platform PBKDF2 family at
iteration count 100,000, output length 32 and digest sha256 (the constants
of src line 98); its output always has length 32, also for the empty
password; determinism is intrinsic, the model being a pure function of
(password, salt). -/
theorem C6_derive_key (pw : List Char) (salt : List Nat) :
    deriveKeyFromPassword pw salt =
      pbkdf2Sync pw salt 100000 32 ['s', 'h', 'a', '2', '5', '6'] ∧
    (deriveKeyFromPassword pw salt).length = 32 ∧
    (deriveKeyFromPassword [] salt).length = 32 :=
  ⟨rfl, deriveKey_length pw salt, deriveKey_length [] salt⟩

/-- C7: password-based encryption round-trips with the right password, and
decrypting with any different password fails with `AuthenticationFailure`
(in the model, distinct passwords derive distinct keys, the idealisation the
spec states for PBKDF2).  `salt` and `iv` model the `crypto.randomBytes`
draws of the source. -/
theorem C7_password_roundtrip (p pw pw' : List Char) (salt iv : List Nat)
    (hiv : iv.length = 12) :
    decryptWithPassword (encryptWithPassword p pw salt iv).encrypted pw
        (encryptWithPassword p pw salt iv).salt = Except.ok p ∧
    (pw' ≠ pw →
      decryptWithPassword (encryptWithPassword p pw salt iv).encrypted pw' salt =
        Except.error CryptoError.AuthenticationFailure) := by
  constructor
  · simp only [encryptWithPassword, decryptWithPassword]
    rw [gcmOpen_of_encrypt _ iv _ (deriveKey_length pw salt) hiv]
    simp only [Except.map]
    rw [utf8_roundtrip]
  · intro hne
    simp only [encryptWithPassword, decryptWithPassword]
    rw [gcmOpen_wrong_key (deriveKey_length pw' salt) hiv (deriveKey_ne salt hne)]
    rfl

theorem C7_witness :
    decryptWithPassword
        (encryptWithPassword "Secret content".data "MySecurePassword123!".data
          (List.replicate 16 2) (List.replicate 12 3)).encrypted
        "MySecurePassword123!".data
        (encryptWithPassword "Secret content".data "MySecurePassword123!".data
          (List.replicate 16 2) (List.replicate 12 3)).salt =
      Except.ok "Secret content".data ∧
    decryptWithPassword
        (encryptWithPassword "Secret content".data "MySecurePassword123!".data
          (List.replicate 16 2) (List.replicate 12 3)).encrypted
        "WrongPassword".data (List.replicate 16 2) =
      Except.error CryptoError.AuthenticationFailure :=
  ⟨(C7_password_roundtrip "Secret content".data "MySecurePassword123!".data
      "WrongPassword".data (List.replicate 16 2) (List.replicate 12 3) (by decide)).1,
   (C7_password_roundtrip "Secret content".data "MySecurePassword123!".data
      "WrongPassword".data (List.replicate 16 2) (List.replicate 12 3) (by decide)).2
     (by decide)⟩

/-- C8: the ciphertext produced by `encrypt` and by `encryptWithPassword`
has exactly the length of the UTF-8 encoding of the plaintext — no padding,
for the empty plaintext included (stream-cipher mode). -/
theorem C8_ciphertext_length (p pw : List Char) (key iv salt : List Nat) :
    (encrypt p key iv).encrypted.ciphertext.length = (utf8Encode p).length ∧
    (encryptWithPassword p pw salt iv).encrypted.ciphertext.length =
      (utf8Encode p).length := by
  constructor <;> simp [encrypt, encryptWithPassword, ctrXor_length]

/-- C9: the claim says the request body sent by `createSnippet` never
contains key material and in password mode never the password; evaluating
the code at a password-mode input shows the body carries the password
verbatim, together with the plaintext content (no encryption is performed
in `createSnippet` at all). -/
theorem C9_password_in_request_body :
    (createSnippetRequestBody
        { content := "Secret content".data, language := none, fileName := none,
          visibility := Visibility.password, expiry := Expiry.h1,
          password := some "hunter2".data } 0).password = some "hunter2".data ∧
    (createSnippetRequestBody
        { content := "Secret content".data, language := none, fileName := none,
          visibility := Visibility.password, expiry := Expiry.h1,
          password := some "hunter2".data } 0).content = "Secret content".data :=
  ⟨rfl, rfl⟩

/-- C10: `parseSnipitUrl` is total; it returns `none` when the URL does not
parse (the platform constructor throws) or when the hostname does not
contain "snipit", and otherwise returns the first path segment (leading `/`
removed) as `id` and the fragment without its leading `#` as `key`, the key
omitted when that leaves the empty string. -/
theorem C10_parse_snipit_url (parseUrl : List Char → Option UrlParts) (url : List Char) :
    (parseUrl url = none → parseSnipitUrl parseUrl url = none) ∧
    (∀ parts, parseUrl url = some parts →
      strContains parts.hostname snipitNeedle = false →
      parseSnipitUrl parseUrl url = none) ∧
    (∀ parts, parseUrl url = some parts →
      strContains parts.hostname snipitNeedle = true →
      parseSnipitUrl parseUrl url =
        some { id := firstPathSegment parts.pathname, key := fragmentKey parts.hash }) := by
  refine ⟨?_, ?_, ?_⟩
  · intro h
    simp [parseSnipitUrl, h]
  · intro parts h hc
    simp [parseSnipitUrl, h, hc]
  · intro parts h hc
    simp only [parseSnipitUrl, h]
    rw [if_pos hc, jsSplitHead_takeWhile]
    rfl

theorem C10_witness :
    parseSnipitUrl (fun _ => none) "nonsense".data = none ∧
    parseSnipitUrl (fun _ => some ⟨"example.com".data, "/x".data, [] ⟩)
      "https".data = none ∧
    parseSnipitUrl
        (fun _ => some ⟨"snipit.sh".data, "/abc123/x".data, "#k".data⟩)
        "https".data = some { id := "abc123".data, key := some "k".data } :=
  ⟨(C10_parse_snipit_url (fun _ => none) "nonsense".data).1 rfl,
   (C10_parse_snipit_url (fun _ => some ⟨"example.com".data, "/x".data, [] ⟩)
      "https".data).2.1 ⟨"example.com".data, "/x".data, [] ⟩ rfl (by decide),
   ((C10_parse_snipit_url
        (fun _ => some ⟨"snipit.sh".data, "/abc123/x".data, "#k".data⟩)
        "https".data).2.2 ⟨"snipit.sh".data, "/abc123/x".data, "#k".data⟩ rfl
      (by decide)).trans (by decide)⟩

end SnipitVerify
